import Mathlib

/-!
Verification development for the SVG-to-mesh converter (`main.go` of
`donniet/goitsfive`).

The Go program is shallowly embedded here.  `float64` values are modelled as
exact rationals (`ℚ`): every arithmetic operation the verified code paths
perform is translated literally, with IEEE rounding abstracted away.  Machine
maps (`map[triangolatte.Point]int`) are modelled by their insertion-order
semantics (later assignments overwrite earlier ones, missing keys yield the
zero value).  Fallible Go functions returning `(T, error)` become
`Except Err T`; Go runtime panics on the modelled paths are represented by
distinguished `Err` constructors, documented at each definition.
-/

namespace ItsFive

/-- Error values.  Go uses the dynamic `error` interface; the constructors
below tag each distinct error site of `main.go` that the verified code paths
can reach.  Constructors marked "panic" model Go runtime panics rather than
returned error values. -/
inductive Err where
  /-- any `io.RuneScanner` read hitting the end of the stream (`io.EOF`) -/
  | eof
  /-- `ChompCommand`: "invalid reader state: no valid command found" -/
  | invalidCommand
  /-- `ChompSign`: "not a number" -/
  | notANumber
  /-- `ChompNumber`: "double decimal point detected" -/
  | doubleDecimalPoint
  /-- `ChompNumber`: "no number found" -/
  | noNumberFound
  /-- `strconv.ParseFloat` failure inside `ChompNumber` (reachable only for
  the digit-free token consisting of a single decimal point) -/
  | floatSyntax
  /-- `MakePart`: "invalid coordinates for part" -/
  | invalidPart
  /-- panic: out-of-range slice index (`coords[i]` in `MakePart` when too few
  arguments are supplied) -/
  | indexOutOfRange
  /-- fuel exhaustion of the embedded parse loop; unreachable for the fuel
  chosen by `Parse` since every loop iteration consumes at least the command
  character -/
  | outOfFuel
  /-- panic: "negative bezier increment" guard of `PolygonFromPathElement` -/
  | nonPositiveResolution
  /-- `parseHashColor`: "uknown color format" (sic) -/
  | unknownColorFormat
  /-- panic: indexing `matches[0]` when `FindStringSubmatch` returned `nil` -/
  | nilSliceIndex
  /-- panic: "check the colorHashParser regex because we should never get
  here" -/
  | unreachableColor
deriving DecidableEq

/-- `Point` of `main.go` (lines 30-33): a 2-D point with `float64`
coordinates, modelled over `ℚ`. -/
structure Point where
  X : ℚ
  Y : ℚ
deriving DecidableEq

/-- `Point.Add` (lines 35-37). -/
def Point.Add (p q : Point) : Point := ⟨p.X + q.X, p.Y + q.Y⟩

/-- `Point.Equals` (lines 38-40): exact componentwise comparison. -/
def Point.Equals (p q : Point) : Bool :=
  decide (p.X = q.X) && decide (p.Y = q.Y)

/-- `Ring` (line 42): an ordered sequence of points forming a closed loop. -/
abbrev Ring := List Point

/-- `Ring.At` (lines 44-49): cyclic (modular) indexing; the empty ring yields
the zero point.  The claims only concern non-negative indices, so the index is
taken in `ℕ`. -/
def Ring.At (r : Ring) (i : ℕ) : Point :=
  if r.length = 0 then ⟨0, 0⟩ else r.getD (i % r.length) ⟨0, 0⟩

/-- The summand of the `Ring.Area` loop body (line 61):
`p0.X*p1.Y - p1.X*p0.Y`. -/
def crossP (p0 p1 : Point) : ℚ := p0.X * p1.Y - p1.X * p0.Y

/-- `Ring.Area` (lines 53-65): zero for rings of length at most 2; otherwise
the loop `for i := 1; i <= len(r); i++` accumulates `crossP p0 p1` where `p0`
threads the previous `r.At` value, i.e. the sum of
`crossP (r.At i) (r.At (i+1))` for `i = 0 .. len-1` (the final `r.At len`
wraps to `r.At 0`). -/
def Ring.Area (r : Ring) : ℚ :=
  if r.length ≤ 2 then 0
  else ((List.range r.length).map (fun i => crossP (Ring.At r i) (Ring.At r (i + 1)))).sum

/-- `Reverse` (lines 437-442): the in-place symmetric swap loop computes
exactly the reversal of the slice. -/
def Reverse (s : List Point) : List Point := s.reverse

/-- `Map` (lines 443-448). -/
def Map (s : List Point) (t : Point → Point) : List Point := s.map t

/-- `RemoveDuplicates` (lines 449-457): single pass dropping an element that
matches the immediately preceding retained element. -/
def RemoveDuplicates (s : List Point) (pred : Point → Point → Bool) : List Point :=
  s.foldl (fun ret k =>
    match ret.getLast? with
    | some r => if pred k r then ret else ret ++ [k]
    | none => ret ++ [k]) []

/-- `Color` (lines 82-84), components modelled over `ℚ`. -/
structure Color where
  R : ℚ
  G : ℚ
  B : ℚ
  A : ℚ
deriving DecidableEq

/-- `Triangle` (line 496): three indices into a polygon's exterior ring. -/
abbrev Triangle := ℕ × ℕ × ℕ

/-- `Polygon` (lines 498-502). -/
structure Polygon where
  Fill : Color
  Exterior : List Point
  Triangles : List Triangle
deriving DecidableEq

/-- `PolygonFromRectElement` (lines 572-610) with the `strconv.ParseFloat`
attribute parsing abstracted to rational inputs and the fill attribute left at
its zero value: emits the four corners in the fixed order
`(x0,y0),(x0,y1),(x1,y1),(x1,y0)` with `x1 = x0+width`, `y1 = y0+height`, and
the fixed two-triangle fan; no winding check and no triangulator call. -/
def PolygonFromRectElement (x0 y0 width height : ℚ) : Polygon :=
  let x1 := x0 + width
  let y1 := y0 + height
  { Fill := ⟨0, 0, 0, 0⟩
    Exterior := [⟨x0, y0⟩, ⟨x0, y1⟩, ⟨x1, y1⟩, ⟨x1, y0⟩]
    Triangles := [(0, 1, 2), (2, 3, 0)] }

/-- The winding-correction step shared verbatim by `PolygonFromPathElement`
(lines 529-531) and `PolygonFromPolygonElement` (lines 632-634): reverse the
ring when its signed area is negative. -/
def windingCorrect (r : List Point) : List Point :=
  if Ring.Area r < 0 then Reverse r else r

/-- The coordinate-pairing loop of `PolygonFromPolygonElement`
(lines 620-630): consecutive pairs become points, a trailing unpaired
coordinate is silently dropped (`i+1 < len(coords)`). -/
def pairUp : List ℚ → List Point
  | x :: y :: t => ⟨x, y⟩ :: pairUp t
  | _ => []

/-- The exterior-ring computation of `PolygonFromPolygonElement`
(lines 612-634), with `coordsSplitter`/`strconv` tokenisation abstracted to
the list of parsed coordinates: pair up, then winding-correct. -/
def PolygonFromPolygonElementExterior (coords : List ℚ) : List Point :=
  windingCorrect (pairUp coords)

/-- The vertex-index map of `PolygonFromPathElement` (lines 540-543) and
`PolygonFromPolygonElement` (lines 641-644): the loop
`for i { indices[tp[i]] = i }` over a Go map.  Later assignments to the same
point value overwrite earlier ones; looking up a missing key returns the zero
value `0`.  Built here as a chain of closures where the assignment made last
is consulted first, which is exactly the overwrite semantics. -/
def buildIndicesAux : List Point → ℕ → (Point → ℕ) → Point → ℕ
  | [], _, m => m
  | q :: rest, i, m => buildIndicesAux rest (i + 1) (fun p => if p = q then i else m p)

/-- The complete `indices` map: assignments `indices[tp[i]] = i` for
`i = 0 .. len-1`, empty-map lookups yielding `0`. -/
def buildIndices (tp : List Point) : Point → ℕ :=
  buildIndicesAux tp 0 (fun _ => 0)

/-- Modelled from the spec (§4.7): the first-seen index of a point value in
the exterior ring, i.e. the position of its first occurrence.  This is the
mapping the specification asserts the assembler builds; it is compared against
`buildIndices`, the mapping the code actually builds. -/
def specFirstSeenIndex (tp : List Point) (p : Point) : ℕ :=
  tp.findIdx (fun q => decide (q = p))

/-- The triangle-resolution loop of `PolygonFromPathElement` (lines 557-565)
and `PolygonFromPolygonElement` (lines 656-664): the triangulator's flat
output, regrouped into vertex triples, each vertex resolved through the
`indices` map by exact value lookup. -/
def resolveTriangles (idx : Point → ℕ) : List Point → List Triangle
  | a :: b :: c :: t => (idx a, idx b, idx c) :: resolveTriangles idx t
  | _ => []

/-- Auxiliary list of cross products of consecutive (non-cyclic) pairs; used
only in proofs to reason about `Ring.Area`. -/
def segSum : List Point → ℚ
  | [] => 0
  | [_] => 0
  | a :: b :: t => crossP a b + segSum (b :: t)

/-- `Bezier` (lines 67-69): a cubic curve given by endpoints `p0`, `p1` and
control points `c0`, `c1`. -/
structure Bezier where
  p0 : Point
  p1 : Point
  c0 : Point
  c1 : Point
deriving DecidableEq

/-- `Bezier.at` (lines 71-80), the two-level linear-interpolation (De
Casteljau) evaluation, translated literally.  Named `atParam` because `at` is
reserved in Lean. -/
def Bezier.atParam (b : Bezier) (t : ℚ) : Point :=
  let a0 : Point := ⟨b.p0.X * (1 - t) + b.c0.X * t, b.p0.Y * (1 - t) + b.c0.Y * t⟩
  let a1 : Point := ⟨b.c0.X * (1 - t) + b.c1.X * t, b.c0.Y * (1 - t) + b.c1.Y * t⟩
  let a2 : Point := ⟨b.c1.X * (1 - t) + b.p1.X * t, b.c1.Y * (1 - t) + b.p1.Y * t⟩
  let b0 : Point := ⟨a0.X * (1 - t) + a1.X * t, a0.Y * (1 - t) + a1.Y * t⟩
  let b1 : Point := ⟨a1.X * (1 - t) + a2.X * t, a1.Y * (1 - t) + a2.Y * t⟩
  ⟨b0.X * (1 - t) + b1.X * t, b0.Y * (1 - t) + b1.Y * t⟩

/-- The sampling loop `for e := 0.; e < 1.0; e += res` of
`SVGDAbsoluteCurvePart.Linearize` / `SVGDRelativeCurvePart.Linearize`
(lines 203-205, 216-218).  The guard carries `0 < res` for termination: the Go
caller `PolygonFromPathElement` panics on `res <= 0` before any curve is
linearized, so the loop only ever runs with a positive increment. -/
def bezLoop (b : Bezier) (res : ℚ) (e : ℚ) : List Point :=
  if h : 0 < res ∧ e < 1 then b.atParam e :: bezLoop b res (e + res) else []
termination_by (⌈(1 - e) / res⌉).toNat
decreasing_by
  have hres := h.1
  have he := h.2
  have hpos : (0 : ℚ) < (1 - e) / res := div_pos (by linarith) hres
  have hceil : 1 ≤ ⌈(1 - e) / res⌉ := by
    have := Int.ceil_pos.mpr hpos
    omega
  have hstep : (1 - (e + res)) / res = (1 - e) / res - 1 := by
    field_simp
    ring
  have : ⌈(1 - (e + res)) / res⌉ = ⌈(1 - e) / res⌉ - 1 := by
    rw [hstep]
    exact_mod_cast Int.ceil_sub_int ((1 - e) / res) 1
  omega

/-- `SVGDPart` (lines 127-227): the closed family of path-command parts.  Each
Go struct becomes one constructor; curve parts carry the three embedded points
`points[0] points[1] points[2]`. -/
inductive SVGDPart where
  | absMove (p : Point)
  | relMove (p : Point)
  | absLine (p : Point)
  | relLine (p : Point)
  | absHorizontal (distance : ℚ)
  | relHorizontal (distance : ℚ)
  | absVertical (distance : ℚ)
  | relVertical (distance : ℚ)
  | absCurve (p0 p1 p2 : Point)
  | relCurve (p0 p1 p2 : Point)
  | close
deriving DecidableEq

/-- The `Linearize(start, res)` methods of the eleven part types
(lines 136-227), combined into one match.  Curve parts build the Bezier
`{p0: start, c0: points[0], c1: points[1], p1: points[2]}` (relative parts
offsetting each embedded point by `start`), run the sampling loop, and append
the exact sample at `t = 1`. -/
def SVGDPart.Linearize (part : SVGDPart) (start : Point) (res : ℚ) : List Point :=
  match part with
  | .absMove p => [p]
  | .relMove p => [start.Add p]
  | .absLine p => [p]
  | .relLine p => [start.Add p]
  | .absHorizontal d => [⟨d, start.Y⟩]
  | .relHorizontal d => [start.Add ⟨d, 0⟩]
  | .absVertical d => [⟨start.X, d⟩]
  | .relVertical d => [start.Add ⟨0, d⟩]
  | .absCurve q0 q1 q2 =>
      bezLoop ⟨start, q2, q0, q1⟩ res 0 ++ [Bezier.atParam ⟨start, q2, q0, q1⟩ 1]
  | .relCurve q0 q1 q2 =>
      bezLoop ⟨start, start.Add q2, start.Add q0, start.Add q1⟩ res 0 ++
        [Bezier.atParam ⟨start, start.Add q2, start.Add q0, start.Add q1⟩ 1]
  | .close => []

/-- `SVGDParts.Linearize` (lines 270-280): fold the parts into one flat point
sequence, threading the last emitted point (initially the zero point) as the
next part's current point. -/
def SVGDParts.Linearize (a : List SVGDPart) (res : ℚ) : List Point :=
  a.foldl (fun ret p => ret ++ p.Linearize (ret.getLastD ⟨0, 0⟩) res) []

/-- `SVGAllCommands` (lines 107-114): the twelve recognized command letters,
in source order. -/
def SVGAllCommands : List Char :=
  ['M', 'm', 'L', 'l', 'V', 'v', 'H', 'h', 'C', 'c', 'Z', 'z']

/-- `MakePart` (lines 229-266).  Commands are runes (`Char` here).  The Go
switch indexes `coords[i]` without checking the argument count: surplus
arguments are ignored, missing ones raise an index-out-of-range runtime panic
(modelled by `Err.indexOutOfRange`); the `invalid coordinates for part` error
is returned only when the command letter matches no case. -/
def MakePart (cmd : Char) (coords : List ℚ) : Except Err SVGDPart :=
  if cmd = 'M' then
    match coords with
    | x :: y :: _ => .ok (.absMove ⟨x, y⟩)
    | _ => .error .indexOutOfRange
  else if cmd = 'm' then
    match coords with
    | x :: y :: _ => .ok (.relMove ⟨x, y⟩)
    | _ => .error .indexOutOfRange
  else if cmd = 'L' then
    match coords with
    | x :: y :: _ => .ok (.absLine ⟨x, y⟩)
    | _ => .error .indexOutOfRange
  else if cmd = 'l' then
    match coords with
    | x :: y :: _ => .ok (.relLine ⟨x, y⟩)
    | _ => .error .indexOutOfRange
  else if cmd = 'H' then
    match coords with
    | x :: _ => .ok (.absHorizontal x)
    | _ => .error .indexOutOfRange
  else if cmd = 'h' then
    match coords with
    | x :: _ => .ok (.relHorizontal x)
    | _ => .error .indexOutOfRange
  else if cmd = 'V' then
    match coords with
    | x :: _ => .ok (.absVertical x)
    | _ => .error .indexOutOfRange
  else if cmd = 'v' then
    match coords with
    | x :: _ => .ok (.relVertical x)
    | _ => .error .indexOutOfRange
  else if cmd = 'C' then
    match coords with
    | a :: b :: c :: d :: e :: f :: _ => .ok (.absCurve ⟨a, b⟩ ⟨c, d⟩ ⟨e, f⟩)
    | _ => .error .indexOutOfRange
  else if cmd = 'c' then
    match coords with
    | a :: b :: c :: d :: e :: f :: _ => .ok (.relCurve ⟨a, b⟩ ⟨c, d⟩ ⟨e, f⟩)
    | _ => .error .indexOutOfRange
  else if cmd = 'Z' ∨ cmd = 'z' then .ok .close
  else .error .invalidPart

/-- The separator character class of `ChompSeperator` (line 375):
whitespace or comma.  (Go's `unicode.IsSpace` accepts further Unicode spaces;
only the ASCII ones occur in the verified inputs.) -/
def isSep (c : Char) : Bool := c.isWhitespace || c = ','

/-- The digit test `ru >= '0' && ru <= '9'` used by `ChompSign` and
`ChompNumber` (lines 360, 406). -/
def digit09 (c : Char) : Bool := '0' ≤ c && c ≤ '9'

/-- `SVGDReader.ChompCommand` (lines 116-125) over a cursor-style stream
(remaining characters as a list): read one rune, accept it if it is a known
command letter, otherwise restore it (the error path leaves the stream
untouched, which is what `UnreadRune` achieves) and fail. -/
def ChompCommand : List Char → Except Err (Char × List Char)
  | [] => .error .eof
  | c :: rest => if c ∈ SVGAllCommands then .ok (c, rest) else .error .invalidCommand

/-- `SVGDReader.ChompSign` (lines 352-368): `+` and `-` are consumed and give
the multiplier; a digit or `.` is unread and assumed positive; anything else
fails with "not a number". -/
def ChompSign : List Char → Except Err (ℚ × List Char)
  | [] => .error .eof
  | c :: rest =>
    if c = '+' then .ok (1, rest)
    else if c = '-' then .ok (-1, rest)
    else if c = '.' || digit09 c then .ok (1, c :: rest)
    else .error .notANumber

/-- `SVGDReader.ChompSeperator` (lines 370-383): consume a maximal run of
whitespace/comma characters; hitting end-of-stream during the scan reports the
read error (which `Parse` treats as fatal). -/
def ChompSeperator : List Char → Except Err (List Char × List Char)
  | [] => .error .eof
  | c :: rest =>
    if isSep c then
      match ChompSeperator rest with
      | .error e => .error e
      | .ok (str, s) => .ok (c :: str, s)
    else .ok ([], c :: rest)

/-- The digit-accumulation loop of `SVGDReader.ChompNumber` (lines 397-413):
collect digits and at most one decimal point; a second point fails; the first
non-number character is unread and ends the scan; end-of-stream during the
scan is a read error. -/
def ChompDigits (point : Bool) (acc : List Char) : List Char → Except Err (List Char × List Char)
  | [] => .error .eof
  | c :: rest =>
    if c = '.' then
      if point then .error .doubleDecimalPoint
      else ChompDigits true (acc ++ [c]) rest
    else if digit09 c then ChompDigits point (acc ++ [c]) rest
    else .ok (acc, c :: rest)

/-- Digit-list to number, most significant first. -/
def natOfDigits (l : List Char) : ℕ :=
  l.foldl (fun n c => 10 * n + (c.toNat - '0'.toNat)) 0

/-- `strconv.ParseFloat` (line 417) on the tokens `ChompDigits` can produce
(digits with at most one embedded point): fails exactly when the token
contains no digit (the token `"."`), otherwise yields the exact decimal
value.  float64 rounding is abstracted: the value is the exact rational. -/
def ParseFloatDigits (str : List Char) : Except Err ℚ :=
  if str.any digit09 then
    .ok ((natOfDigits (str.takeWhile (fun c => c ≠ '.')) : ℚ) +
      (natOfDigits ((str.dropWhile (fun c => c ≠ '.')).drop 1) : ℚ) /
        10 ^ ((str.dropWhile (fun c => c ≠ '.')).drop 1).length)
  else .error .floatSyntax

/-- `SVGDReader.ChompNumber` (lines 385-422): sign, digit scan, empty-token
check, float conversion, signed result. -/
def ChompNumber (s : List Char) : Except Err (ℚ × List Char) :=
  match ChompSign s with
  | .error e => .error e
  | .ok (sign, s1) =>
    match ChompDigits false [] s1 with
    | .error e => .error e
    | .ok (str, s2) =>
      if str = [] then .error .noNumberFound
      else
        match ParseFloatDigits str with
        | .error e => .error e
        | .ok num => .ok (sign * num, s2)

/-- The curve-argument loop of `SVGDReader.Parse` (lines 329-335): `n` times,
a number followed by a separator. -/
def ChompCoords : ℕ → List Char → Except Err (List ℚ × List Char)
  | 0, s => .ok ([], s)
  | n + 1, s =>
    match ChompNumber s with
    | .error e => .error e
    | .ok (x, s1) =>
      match ChompSeperator s1 with
      | .error e => .error e
      | .ok (_, s2) =>
        match ChompCoords n s2 with
        | .error e => .error e
        | .ok (xs, s3) => .ok (x :: xs, s3)

/-- The loop body of `SVGDReader.Parse` (lines 282-350), with explicit fuel.
Each iteration consumes a (possibly empty) separator run, one command letter,
and the command's arguments; a close command returns the accumulated parts
successfully without inspecting the rest of the stream.  Every iteration of
the Go loop consumes at least the command character, so the fuel chosen by
`Parse` below never runs out. -/
def ParseAux : ℕ → List Char → List SVGDPart → Except Err (List SVGDPart)
  | 0, _, _ => .error .outOfFuel
  | fuel + 1, s, acc =>
    match ChompSeperator s with
    | .error e => .error e
    | .ok (_, s1) =>
      match ChompCommand s1 with
      | .error e => .error e
      | .ok (cmd, s2) =>
        if cmd = 'L' ∨ cmd = 'l' ∨ cmd = 'M' ∨ cmd = 'm' then
          match ChompNumber s2 with
          | .error e => .error e
          | .ok (x, s3) =>
            match ChompSeperator s3 with
            | .error e => .error e
            | .ok (_, s4) =>
              match ChompNumber s4 with
              | .error e => .error e
              | .ok (y, s5) =>
                match MakePart cmd [x, y] with
                | .error e => .error e
                | .ok part => ParseAux fuel s5 (acc ++ [part])
        else if cmd = 'H' ∨ cmd = 'h' ∨ cmd = 'V' ∨ cmd = 'v' then
          match ChompNumber s2 with
          | .error e => .error e
          | .ok (x, s3) =>
            match MakePart cmd [x] with
            | .error e => .error e
            | .ok part => ParseAux fuel s3 (acc ++ [part])
        else if cmd = 'C' ∨ cmd = 'c' then
          match ChompCoords 6 s2 with
          | .error e => .error e
          | .ok (c, s3) =>
            match MakePart cmd c with
            | .error e => .error e
            | .ok part => ParseAux fuel s3 (acc ++ [part])
        else if cmd = 'Z' ∨ cmd = 'z' then
          match MakePart cmd [] with
          | .error e => .error e
          | .ok part => .ok (acc ++ [part])
        else
          ParseAux fuel s2 acc

/-- `SVGDReader.Parse` (lines 282-350).  The Go loop terminates because every
iteration consumes at least one character; `length + 1` units of fuel
therefore always suffice. -/
def Parse (s : List Char) : Except Err (List SVGDPart) :=
  ParseAux (s.length + 1) s []

/-- The exterior-ring computation of `PolygonFromPathElement` (lines 504-531):
resolution guard (the Go panic on `res <= 0` modelled as
`Err.nonPositiveResolution`), parse of the `d` attribute, linearization,
adjacent-duplicate removal with `Point.Equals`, winding correction. -/
def PolygonFromPathElementExterior (d : List Char) (res : ℚ) : Except Err (List Point) :=
  if res ≤ 0 then .error .nonPositiveResolution
  else
    match Parse d with
    | .error e => .error e
    | .ok parts =>
      let ext := RemoveDuplicates (SVGDParts.Linearize parts res) (fun p q => p.Equals q)
      .ok (windingCorrect ext)

/-- Hex-digit class `[0-9A-Fa-f]` of the color pattern (line 26). -/
def isHexDigit (c : Char) : Bool :=
  digit09 c || ('A' ≤ c && c ≤ 'F') || ('a' ≤ c && c ≤ 'f')

/-- Value of one hex digit. -/
def hexDigitVal (c : Char) : ℕ :=
  if digit09 c then c.toNat - '0'.toNat
  else if 'A' ≤ c && c ≤ 'F' then c.toNat - 'A'.toNat + 10
  else c.toNat - 'a'.toNat + 10

/-- `mustParseHex` (lines 424-430): `strconv.ParseUint(s, 16, 64)`; its panic
branch is unreachable here because every call site passes characters matched
by the hex-digit class. -/
def MustParseHex (l : List Char) : ℕ :=
  l.foldl (fun n c => 16 * n + hexDigitVal c) 0

/-- `mustParseHexColor` (lines 432-435): the parsed hex value divided by
`1 << (4*len(s))`, i.e. by `16^len(s)`. -/
def MustParseHexColor (l : List Char) : ℚ :=
  (MustParseHex l : ℚ) / ((2 ^ (4 * l.length) : ℕ) : ℚ)

/-- `colorHashParser.FindStringSubmatch` (line 26, applied at line 460)
distilled for the fixed pattern with two alternatives, matched
leftmost-first as Go's regexp does:
the first alternative (anchored only at the start) requires a leading hash
sign followed by six hex digits and captures them as submatch 1; otherwise
the second alternative (anchored only at the end) requires the final three
characters to be hex digits and captures them as submatch 2.  `none` models
the `nil` result for a string matching neither. -/
def colorHashFind (s : List Char) : Option (List Char × List Char × List Char) :=
  if 7 ≤ s.length ∧ s.take 1 = ['#'] ∧ ((s.drop 1).take 6).all isHexDigit then
    some (s.take 7, (s.drop 1).take 6, [])
  else if 3 ≤ s.length ∧ (s.drop (s.length - 3)).all isHexDigit then
    some (s.drop (s.length - 3), [], s.drop (s.length - 3))
  else none

/-- `parseHashColor` (lines 459-481).  A `nil` match result makes the Go code
index a nil slice at `matches[0]`, a runtime panic modelled by
`Err.nilSliceIndex`; since neither alternative of the pattern can match the
empty string, the `matches[0] == ""` error branch is unreachable, as is the
trailing debug panic (`Err.unreachableColor`). -/
def parseHashColor (s : List Char) : Except Err Color :=
  match colorHashFind s with
  | none => .error .nilSliceIndex
  | some (m0, m1, m2) =>
    if m0 = [] then .error .unknownColorFormat
    else if m2.length = 3 then
      .ok ⟨MustParseHexColor (m2.take 1),
           MustParseHexColor ((m2.drop 1).take 1),
           MustParseHexColor ((m2.drop 2).take 1), 0⟩
    else if m1.length = 6 then
      .ok ⟨MustParseHexColor (m1.take 2),
           MustParseHexColor ((m1.drop 2).take 2),
           MustParseHexColor ((m1.drop 4).take 2), 0⟩
    else .error .unreachableColor

/-- `ParseColor` (lines 483-486): delegates to `parseHashColor`. -/
def ParseColor (s : List Char) : Except Err Color := parseHashColor s

theorem crossP_antisymm (p q : Point) : crossP p q = -crossP q p := by
  simp only [crossP]
  ring

theorem getD_zero_eq_head (r : List Point) (d : Point) : r.getD 0 d = r.head?.getD d := by
  cases r <;> simp

theorem getD_last_eq_getLast (r : List Point) (d : Point) (h : r ≠ []) :
    r.getD (r.length - 1) d = r.getLast?.getD d := by
  induction r with
  | nil => exact absurd rfl h
  | cons a t ih =>
    cases t with
    | nil => rfl
    | cons b t2 =>
      have := ih (List.cons_ne_nil b t2)
      rw [List.getLast?_cons_cons,
        show (a :: b :: t2).length - 1 = ((b :: t2).length - 1) + 1 by simp,
        List.getD_cons_succ]
      exact this

theorem segSum_range (r : List Point) :
    ((List.range (r.length - 1)).map
      (fun i => crossP (r.getD i ⟨0, 0⟩) (r.getD (i + 1) ⟨0, 0⟩))).sum = segSum r := by
  induction r with
  | nil => simp [segSum]
  | cons a t ih =>
    cases t with
    | nil => simp [segSum]
    | cons b t2 =>
      have hlen : (a :: b :: t2).length - 1 = t2.length + 1 := by simp
      rw [hlen, List.range_succ_eq_map, List.map_cons, List.sum_cons, List.map_map]
      have hmap : (List.range t2.length).map
          ((fun i => crossP ((a :: b :: t2).getD i ⟨0, 0⟩) ((a :: b :: t2).getD (i + 1) ⟨0, 0⟩))
            ∘ Nat.succ) =
          (List.range t2.length).map
          (fun i => crossP ((b :: t2).getD i ⟨0, 0⟩) ((b :: t2).getD (i + 1) ⟨0, 0⟩)) := by
        apply List.map_congr_left
        intro i _
        simp [Function.comp]
      rw [hmap, show t2.length = (b :: t2).length - 1 by simp, ih]
      simp [segSum]

theorem area_eq_segSum (r : Ring) (h : 2 < r.length) :
    Ring.Area r = segSum r + crossP (r.getLast?.getD ⟨0, 0⟩) (r.head?.getD ⟨0, 0⟩) := by
  have hne : r ≠ [] := by
    intro hr
    rw [hr] at h
    simp at h
  rw [Ring.Area, if_neg (by omega)]
  obtain ⟨n, hn⟩ : ∃ n, r.length = n + 1 := ⟨r.length - 1, by omega⟩
  rw [hn, List.range_succ, List.map_append, List.sum_append]
  have hAt : ∀ i, i < n + 1 → Ring.At r i = r.getD i ⟨0, 0⟩ := by
    intro i hi
    rw [Ring.At, if_neg (by omega), hn, Nat.mod_eq_of_lt hi]
  have hlast : Ring.At r n = r.getLast?.getD ⟨0, 0⟩ := by
    rw [hAt n (by omega), ← getD_last_eq_getLast r _ hne, hn]
    simp
  have hwrap : Ring.At r (n + 1) = r.head?.getD ⟨0, 0⟩ := by
    rw [Ring.At, if_neg (by omega), hn, Nat.mod_self, getD_zero_eq_head]
  have hmain : (List.range n).map (fun i => crossP (Ring.At r i) (Ring.At r (i + 1))) =
      (List.range n).map (fun i => crossP (r.getD i ⟨0, 0⟩) (r.getD (i + 1) ⟨0, 0⟩)) := by
    apply List.map_congr_left
    intro i hi
    have hi' := List.mem_range.mp hi
    rw [hAt i (by omega), hAt (i + 1) (by omega)]
  rw [hmain]
  simp only [List.map_cons, List.map_nil, List.sum_cons, List.sum_nil, add_zero]
  rw [hlast, hwrap]
  have := segSum_range r
  rw [hn] at this
  simp only [Nat.add_sub_cancel] at this
  rw [this]

theorem segSum_snoc (l : List Point) (a : Point) (h : l ≠ []) :
    segSum (l ++ [a]) = segSum l + crossP (l.getLast?.getD ⟨0, 0⟩) a := by
  induction l with
  | nil => exact absurd rfl h
  | cons x t ih =>
    cases t with
    | nil => simp [segSum]
    | cons y t2 =>
      have := ih (List.cons_ne_nil y t2)
      simp only [List.cons_append, segSum, List.getLast?_cons_cons, List.append_eq] at this ⊢
      rw [this]
      ring

theorem segSum_reverse (l : List Point) : segSum l.reverse = -segSum l := by
  induction l with
  | nil => simp [segSum]
  | cons a t ih =>
    cases t with
    | nil => simp [segSum]
    | cons b t2 =>
      rw [List.reverse_cons, segSum_snoc _ _ (by simp)]
      rw [ih]
      simp only [List.getLast?_reverse, segSum, List.head?_cons, Option.getD_some]
      rw [crossP_antisymm]
      ring

theorem area_length_le_two (r : Ring) (h : r.length ≤ 2) : Ring.Area r = 0 := by
  rw [Ring.Area, if_pos h]

theorem area_reverse (r : Ring) : Ring.Area (Reverse r) = -Ring.Area r := by
  by_cases hl : r.length ≤ 2
  · rw [area_length_le_two r hl, area_length_le_two]
    · ring
    · simpa [Reverse] using hl
  · push_neg at hl
    have hne : r ≠ [] := by
      intro hr
      rw [hr] at hl
      simp at hl
    rw [Reverse, area_eq_segSum r hl, area_eq_segSum r.reverse (by simpa using hl)]
    rw [segSum_reverse, List.getLast?_reverse, List.head?_reverse]
    rw [crossP_antisymm]
    ring

theorem area_rotate_one (r : Ring) : Ring.Area (r.rotate 1) = Ring.Area r := by
  cases r with
  | nil => simp
  | cons a xs =>
    have hrot : (a :: xs).rotate 1 = xs ++ [a] := by
      have := List.rotate_cons_succ xs a 0
      simpa using this
    rw [hrot]
    by_cases hl : (a :: xs).length ≤ 2
    · rw [area_length_le_two _ hl, area_length_le_two]
      simpa using hl
    · push_neg at hl
      obtain ⟨y, t, hxs⟩ : ∃ y t, xs = y :: t := by
        cases xs with
        | nil => simp at hl
        | cons y t => exact ⟨y, t, rfl⟩
      subst hxs
      rw [area_eq_segSum _ (by simpa using hl), area_eq_segSum _ (by simp at hl ⊢; omega)]
      rw [segSum_snoc _ _ (List.cons_ne_nil y t)]
      rw [show y :: t ++ [a] = (y :: t) ++ [a] from rfl, List.getLast?_concat]
      simp only [List.cons_append, List.head?_cons, Option.getD_some,
        List.getLast?_cons_cons, segSum]
      ring

theorem area_rotate (r : Ring) (n : ℕ) : Ring.Area (r.rotate n) = Ring.Area r := by
  induction n with
  | zero => simp
  | succ k ih =>
    have : r.rotate (k + 1) = (r.rotate k).rotate 1 := by
      rw [List.rotate_rotate]
    rw [this, area_rotate_one, ih]

theorem windingCorrect_area_nonneg (r : List Point) : 0 ≤ Ring.Area (windingCorrect r) := by
  rw [windingCorrect]
  by_cases hneg : Ring.Area r < 0
  · rw [if_pos hneg, area_reverse]
    linarith
  · rw [if_neg hneg]
    linarith

theorem rect_exterior_area (x0 y0 w h : ℚ) :
    Ring.Area (PolygonFromRectElement x0 y0 w h).Exterior = -(2 * w * h) := by
  simp only [PolygonFromRectElement]
  rw [Ring.Area, if_neg (by norm_num)]
  norm_num [Ring.At, List.range_succ, crossP]
  ring

/-- C5: `Ring.Area` of a ring of length at most 2 is zero, is invariant under
cyclic rotation of the starting index, and flips sign under point-order
reversal. -/
theorem C5_area_properties :
    (∀ r : Ring, r.length ≤ 2 → Ring.Area r = 0) ∧
    (∀ (r : Ring) (n : ℕ), Ring.Area (r.rotate n) = Ring.Area r) ∧
    (∀ r : Ring, Ring.Area (Reverse r) = -Ring.Area r) :=
  ⟨area_length_le_two, area_rotate, area_reverse⟩

/-- Witness for C5 at concrete rings. -/
theorem C5_area_properties_witness :
    Ring.Area [(⟨0, 0⟩ : Point), ⟨3, 4⟩] = 0 ∧
    Ring.Area (Reverse [(⟨0, 0⟩ : Point), ⟨2, 0⟩, ⟨0, 2⟩]) =
      -Ring.Area [(⟨0, 0⟩ : Point), ⟨2, 0⟩, ⟨0, 2⟩] :=
  ⟨C5_area_properties.1 [⟨0, 0⟩, ⟨3, 4⟩] (by simp),
   C5_area_properties.2.2 [⟨0, 0⟩, ⟨2, 0⟩, ⟨0, 2⟩]⟩

/-- C10: cyclic ring indexing is total for natural indices: on a non-empty
ring, `Ring.At r i` is the element at position `i % r.length` (a position
always in range); on the empty ring it is the zero point, not a failure. -/
theorem C10_cyclic_indexing :
    (∀ (r : Ring) (i : ℕ), r ≠ [] →
      i % r.length < r.length ∧ Ring.At r i = r.getD (i % r.length) ⟨0, 0⟩) ∧
    (∀ i : ℕ, Ring.At ([] : Ring) i = ⟨0, 0⟩) := by
  constructor
  · intro r i h
    have hlen : 0 < r.length := List.length_pos.mpr h
    exact ⟨Nat.mod_lt _ hlen, by rw [Ring.At, if_neg (by omega)]⟩
  · intro i
    rfl

/-- Witness for C10: index 5 on a 2-element ring resolves to position 1. -/
theorem C10_cyclic_indexing_witness :
    5 % ([(⟨5, 6⟩ : Point), ⟨7, 8⟩] : Ring).length < ([(⟨5, 6⟩ : Point), ⟨7, 8⟩] : Ring).length ∧
    Ring.At [(⟨5, 6⟩ : Point), ⟨7, 8⟩] 5 =
      ([(⟨5, 6⟩ : Point), ⟨7, 8⟩] : Ring).getD
        (5 % ([(⟨5, 6⟩ : Point), ⟨7, 8⟩] : Ring).length) ⟨0, 0⟩ :=
  C10_cyclic_indexing.1 [⟨5, 6⟩, ⟨7, 8⟩] 5 (by simp)

/-- C9: the rectangle builder on `x=0, y=0, width=2, height=1` yields
exactly the exterior `[(0,0),(0,1),(2,1),(2,0)]` and the fixed two-triangle
fan `(0,1,2),(2,3,0)` (no triangulator involved in its definition), and the
two triangles cover all four vertex indices. -/
theorem C9_rect_fan :
    PolygonFromRectElement 0 0 2 1 =
      { Fill := ⟨0, 0, 0, 0⟩
        Exterior := [⟨0, 0⟩, ⟨0, 1⟩, ⟨2, 1⟩, ⟨2, 0⟩]
        Triangles := [(0, 1, 2), (2, 3, 0)] } ∧
    (PolygonFromRectElement 0 0 2 1).Triangles.length = 2 ∧
    (([0, 1, 2, 3] : List ℕ).all fun i =>
      (PolygonFromRectElement 0 0 2 1).Triangles.any fun t =>
        i = t.1 || i = t.2.1 || i = t.2.2) = true := by
  refine ⟨?_, rfl, rfl⟩
  norm_num [PolygonFromRectElement]

/-- C2 counterexample: the rectangle builder with `x=0, y=0, width=2,
height=1` successfully yields an exterior with signed area `-4`, which is
negative, not positive; and the point-list builder on the degenerate
two-point input yields an exterior with signed area `0`, not positive. -/
theorem C2_counterexample :
    Ring.Area (PolygonFromRectElement 0 0 2 1).Exterior = -4 ∧
    PolygonFromPolygonElementExterior [0, 0, 1, 1] = [⟨0, 0⟩, ⟨1, 1⟩] ∧
    Ring.Area (PolygonFromPolygonElementExterior [0, 0, 1, 1]) = 0 := by
  refine ⟨by rw [rect_exterior_area]; norm_num, ?_, ?_⟩
  · norm_num [PolygonFromPolygonElementExterior, pairUp, windingCorrect, Ring.Area]
  · norm_num [PolygonFromPolygonElementExterior, pairUp, windingCorrect, Ring.Area]

/-- C2 (amended): the point-list and path builders winding-correct their
exterior — a ring found with negative signed area is reversed, so the ring
kept has non-negative signed area; the rectangle builder applies no winding
correction, and the fixed corner order it emits has negative signed area
whenever width and height are positive. -/
theorem C2_winding_normalization :
    (∀ r : List Point, 0 ≤ Ring.Area (windingCorrect r)) ∧
    (∀ coords : List ℚ, 0 ≤ Ring.Area (PolygonFromPolygonElementExterior coords)) ∧
    (∀ (d : List Char) (res : ℚ) (ext : List Point),
      PolygonFromPathElementExterior d res = .ok ext → 0 ≤ Ring.Area ext) ∧
    (∀ x0 y0 w h : ℚ, 0 < w → 0 < h →
      Ring.Area (PolygonFromRectElement x0 y0 w h).Exterior < 0) := by
  refine ⟨windingCorrect_area_nonneg, ?_, ?_, ?_⟩
  · intro coords
    exact windingCorrect_area_nonneg (pairUp coords)
  · intro d res ext h
    rw [PolygonFromPathElementExterior] at h
    split at h
    · exact absurd h (by simp)
    · split at h
      · exact absurd h (by simp)
      · rw [Except.ok.injEq] at h
        rw [← h]
        exact windingCorrect_area_nonneg _
  · intro x0 y0 w h hw hh
    rw [rect_exterior_area]
    nlinarith

/-- Witness for C2 at concrete inputs. -/
theorem C2_winding_normalization_witness :
    0 ≤ Ring.Area (windingCorrect [(⟨0, 0⟩ : Point), ⟨0, 1⟩, ⟨1, 1⟩]) ∧
    Ring.Area (PolygonFromRectElement 0 0 2 1).Exterior < 0 :=
  ⟨C2_winding_normalization.1 [⟨0, 0⟩, ⟨0, 1⟩, ⟨1, 1⟩],
   C2_winding_normalization.2.2.2 0 0 2 1 (by norm_num) (by norm_num)⟩

theorem bezLoop_eq_map (n : ℕ) (b : Bezier) (res : ℚ) (hres : 0 < res) :
    ∀ e : ℚ, (∀ k : ℕ, k < n → e + k * res < 1) → 1 ≤ e + n * res →
      bezLoop b res e = (List.range n).map (fun k : ℕ => b.atParam (e + (k : ℚ) * res)) := by
  induction n with
  | zero =>
    intro e _ hge
    have he : ¬(e < 1) := by
      push_neg
      simpa using hge
    rw [bezLoop, dif_neg (by tauto)]
    simp
  | succ n ih =>
    intro e hlt hge
    have he : e < 1 := by
      have := hlt 0 (Nat.succ_pos n)
      simpa using this
    rw [bezLoop, dif_pos ⟨hres, he⟩]
    have hrec := ih (e + res)
      (by
        intro k hk
        have := hlt (k + 1) (by omega)
        push_cast at this ⊢
        linarith [this])
      (by
        push_cast at hge ⊢
        linarith [hge])
    rw [hrec, List.range_succ_eq_map, List.map_cons, List.map_map]
    congr 1
    · norm_num
    apply List.map_congr_left
    intro k _
    simp only [Function.comp]
    congr 1
    push_cast
    ring

/-- C6: for every cubic Bezier, De Casteljau evaluation at `t=0` is exactly
`p0` and at `t=1` exactly `p1` (in particular for the spec's concrete curve);
and linearization of a curve part samples the Bezier at `t = 0, res, 2*res,
...` exactly while `t < 1`, then appends one final sample at exactly `t = 1`
(the sample count `⌈1/res⌉` is characterized by `k < count ↔ k*res < 1`). -/
theorem C6_bezier_sampling :
    (∀ b : Bezier, b.atParam 0 = b.p0 ∧ b.atParam 1 = b.p1) ∧
    (Bezier.atParam ⟨⟨0, 0⟩, ⟨1, 0⟩, ⟨0, 1⟩, ⟨1, 1⟩⟩ 0 = ⟨0, 0⟩ ∧
     Bezier.atParam ⟨⟨0, 0⟩, ⟨1, 0⟩, ⟨0, 1⟩, ⟨1, 1⟩⟩ 1 = ⟨1, 0⟩) ∧
    (∀ (start q0 q1 q2 : Point) (res : ℚ), 0 < res →
      SVGDPart.Linearize (.absCurve q0 q1 q2) start res =
        ((List.range (Nat.ceil (1 / res))).map
          (fun k : ℕ => Bezier.atParam ⟨start, q2, q0, q1⟩ ((k : ℚ) * res))) ++
          [Bezier.atParam ⟨start, q2, q0, q1⟩ 1] ∧
      (∀ k : ℕ, k < Nat.ceil (1 / res) ↔ (k : ℚ) * res < 1)) := by
  refine ⟨?_, ?_, ?_⟩
  · intro b
    obtain ⟨⟨px0, py0⟩, ⟨px1, py1⟩, ⟨cx0, cy0⟩, ⟨cx1, cy1⟩⟩ := b
    constructor <;>
      · simp only [Bezier.atParam, Point.mk.injEq]
        constructor <;> ring
  · constructor <;> · norm_num [Bezier.atParam]
  · intro start q0 q1 q2 res hres
    have hiff : ∀ k : ℕ, k < Nat.ceil (1 / res) ↔ (k : ℚ) * res < 1 := by
      intro k
      rw [Nat.lt_ceil, lt_div_iff hres]
    refine ⟨?_, hiff⟩
    rw [SVGDPart.Linearize]
    congr 1
    rw [bezLoop_eq_map (Nat.ceil (1 / res)) _ res hres 0
      (by
        intro k hk
        have := (hiff k).mp hk
        linarith)
      (by
        have h1 : (1 : ℚ) / res ≤ (Nat.ceil ((1 : ℚ) / res) : ℚ) := Nat.le_ceil _
        rw [div_le_iff hres] at h1
        linarith)]
    apply List.map_congr_left
    intro k _
    rw [zero_add]

/-- Witness for C6: the curve part with `res = 1/2` linearizes to the samples
at `t = 0, 1/2` plus the final sample at `t = 1`. -/
theorem C6_bezier_sampling_witness :
    SVGDPart.Linearize (.absCurve ⟨0, 1⟩ ⟨1, 1⟩ ⟨1, 0⟩) ⟨0, 0⟩ (1 / 2) =
      ((List.range (Nat.ceil ((1 : ℚ) / (1 / 2)))).map
        (fun k : ℕ => Bezier.atParam ⟨⟨0, 0⟩, ⟨1, 0⟩, ⟨0, 1⟩, ⟨1, 1⟩⟩ ((k : ℚ) * (1 / 2)))) ++
        [Bezier.atParam ⟨⟨0, 0⟩, ⟨1, 0⟩, ⟨0, 1⟩, ⟨1, 1⟩⟩ 1] :=
  (C6_bezier_sampling.2.2 ⟨0, 0⟩ ⟨0, 1⟩ ⟨1, 1⟩ ⟨1, 0⟩ (1 / 2) (by norm_num)).1

/-- C8 counterexample: for the recognized command `M` with three arguments
(arity mismatch: moves take two), `MakePart` succeeds, ignoring the surplus
argument, instead of failing with the invalid-arguments error; and for the
recognized command `H` with no arguments it panics with an out-of-range index
instead of returning the invalid-arguments error. -/
theorem C8_counterexample :
    MakePart 'M' [1, 2, 3] = Except.ok (SVGDPart.absMove ⟨1, 2⟩) ∧
    MakePart 'H' [] = Except.error Err.indexOutOfRange := by
  constructor <;> rfl

/-- C8 (amended): `MakePart` returns the invalid-arguments error value
exactly for command codes outside the twelve recognized letters; for
recognized codes it never checks arity — surplus arguments are ignored and
missing ones are an out-of-range slice access, not this error. -/
theorem C8_make_part_error_iff (cmd : Char) (coords : List ℚ) :
    MakePart cmd coords = Except.error Err.invalidPart ↔ cmd ∉ SVGAllCommands := by
  by_cases hmem : cmd ∈ SVGAllCommands
  · have hmem2 := hmem
    simp only [SVGAllCommands, List.mem_cons, List.not_mem_nil, or_false] at hmem2
    have hne : ¬MakePart cmd coords = Except.error Err.invalidPart := by
      rcases hmem2 with h | h | h | h | h | h | h | h | h | h | h | h <;> subst h <;>
        rcases coords with _ | ⟨a, _ | ⟨b, _ | ⟨c, _ | ⟨d, _ | ⟨e, _ | ⟨f, t⟩⟩⟩⟩⟩⟩ <;>
        simp [MakePart]
    simp [hne, hmem]
  · simp only [SVGAllCommands, List.mem_cons, List.not_mem_nil, or_false] at hmem
    push_neg at hmem
    obtain ⟨n1, n2, n3, n4, n5, n6, n7, n8, n9, n10, n11, n12⟩ := hmem
    have hyes : MakePart cmd coords = Except.error Err.invalidPart := by
      simp [MakePart, n1, n2, n3, n4, n5, n6, n7, n8, n9, n10, n11, n12]
    refine ⟨fun _ => ?_, fun _ => hyes⟩
    simp [SVGAllCommands, n1, n2, n3, n4, n5, n6, n7, n8, n9, n10, n11, n12]

/-- Witness for C8 at a concrete unrecognized command code. -/
theorem C8_make_part_error_iff_witness :
    (MakePart 'Q' [] = Except.error Err.invalidPart ↔ 'Q' ∉ SVGAllCommands) ∧
    MakePart 'Q' [] = Except.error Err.invalidPart :=
  ⟨C8_make_part_error_iff 'Q' [], by rfl⟩

/-- C7 counterexample: parsing the six-hex-digit color does not give
`r = 1.0`: the divisor is `1 << (4*len)` = 256, so the red channel of
`#FF0000` is `255/256`, not `1`. -/
theorem C7_counterexample :
    ParseColor ['#', 'F', 'F', '0', '0', '0', '0'] = Except.ok ⟨255 / 256, 0, 0, 0⟩ ∧
    (255 / 256 : ℚ) ≠ 1 := by
  constructor
  · simp [ParseColor, parseHashColor, colorHashFind, MustParseHexColor, MustParseHex,
      hexDigitVal, isHexDigit, digit09]
  · norm_num

/-- C7 (amended): `#FF0000` parses to `r = 255/256, g = 0, b = 0` (channels
are divided by `16^digits`, so full intensity is `255/256`, not `1`);
`#F00` parses — via the end-anchored three-hex-digit alternative of the
pattern — to `r = 15/16`, which is a different color, not the same one;
and `#ZZZZZZ` makes the match result `nil`, so the code panics indexing
`matches[0]` instead of returning the format error. -/
theorem C7_color_values :
    ParseColor ['#', 'F', 'F', '0', '0', '0', '0'] = Except.ok ⟨255 / 256, 0, 0, 0⟩ ∧
    ParseColor ['#', 'F', '0', '0'] = Except.ok ⟨15 / 16, 0, 0, 0⟩ ∧
    (15 / 16 : ℚ) ≠ 255 / 256 ∧
    ParseColor ['#', 'Z', 'Z', 'Z', 'Z', 'Z', 'Z'] = Except.error Err.nilSliceIndex := by
  refine ⟨?_, ?_, by norm_num, ?_⟩
  · simp [ParseColor, parseHashColor, colorHashFind, MustParseHexColor, MustParseHex,
      hexDigitVal, isHexDigit, digit09]
  · simp [ParseColor, parseHashColor, colorHashFind, MustParseHexColor, MustParseHex,
      hexDigitVal, isHexDigit, digit09]
  · simp [ParseColor, parseHashColor, colorHashFind, isHexDigit, digit09]

theorem ChompDigits_append_digits (ds : List Char) (hds : ∀ c ∈ ds, digit09 c = true) :
    ∀ (point : Bool) (acc t : List Char),
      ChompDigits point acc (ds ++ t) = ChompDigits point (acc ++ ds) t := by
  induction ds with
  | nil =>
    intro point acc t
    simp
  | cons c ds ih =>
    intro point acc t
    have hc : digit09 c = true := hds c (List.mem_cons_self c ds)
    have hcdot : c ≠ '.' := by
      intro he
      subst he
      simp [digit09] at hc
    rw [List.cons_append, ChompDigits, if_neg hcdot, if_pos hc,
      ih (fun x hx => hds x (List.mem_cons_of_mem c hx)) point (acc ++ [c]) t]
    simp

/-- C4: a numeric token containing a second decimal point makes the numeric
lexer fail with the double-decimal-point error — for every stream presenting
sign-free digits, a point, more digits, and a second point — and the
enclosing path parse aborts with exactly that error (shown on the spec's
token `1.2.3`). -/
theorem C4_double_decimal :
    (∀ (d : Char) (ds1 ds2 rest : List Char), digit09 d = true →
      (∀ c ∈ ds1, digit09 c = true) → (∀ c ∈ ds2, digit09 c = true) →
      ChompNumber (d :: (ds1 ++ '.' :: (ds2 ++ '.' :: rest))) =
        Except.error Err.doubleDecimalPoint) ∧
    Parse ['M', '1', '.', '2', '.', '3', ' ', '0', 'Z'] =
      Except.error Err.doubleDecimalPoint := by
  constructor
  · intro d ds1 ds2 rest hd h1 h2
    have hplus : d ≠ '+' := by
      intro he
      subst he
      simp [digit09] at hd
    have hminus : d ≠ '-' := by
      intro he
      subst he
      simp [digit09] at hd
    have hdigits1 : ∀ c ∈ d :: ds1, digit09 c = true := by
      intro c hc
      rcases List.mem_cons.mp hc with h | h
      · subst h
        exact hd
      · exact h1 c h
    have hsign : ChompSign (d :: (ds1 ++ '.' :: (ds2 ++ '.' :: rest))) =
        Except.ok (1, d :: (ds1 ++ '.' :: (ds2 ++ '.' :: rest))) := by
      simp [ChompSign, hplus, hminus, hd]
    have hstep1 : ChompDigits false [] (d :: (ds1 ++ '.' :: (ds2 ++ '.' :: rest))) =
        ChompDigits false (d :: ds1) ('.' :: (ds2 ++ '.' :: rest)) := by
      have := ChompDigits_append_digits (d :: ds1) hdigits1 false []
        ('.' :: (ds2 ++ '.' :: rest))
      simpa using this
    have hstep2 : ChompDigits false (d :: ds1) ('.' :: (ds2 ++ '.' :: rest)) =
        ChompDigits true ((d :: ds1) ++ ['.']) (ds2 ++ '.' :: rest) := by
      rw [ChompDigits]
      simp
    have hstep3 : ChompDigits true ((d :: ds1) ++ ['.']) (ds2 ++ '.' :: rest) =
        ChompDigits true (((d :: ds1) ++ ['.']) ++ ds2) ('.' :: rest) :=
      ChompDigits_append_digits ds2 h2 true ((d :: ds1) ++ ['.']) ('.' :: rest)
    have hstep4 : ChompDigits true (((d :: ds1) ++ ['.']) ++ ds2) ('.' :: rest) =
        Except.error Err.doubleDecimalPoint := by
      rw [ChompDigits]
      simp
    simp only [ChompNumber, hsign, hstep1, hstep2, hstep3, hstep4]
  · rfl

/-- Witness for C4 at the concrete token `1.2.3`. -/
theorem C4_double_decimal_witness :
    ChompNumber ['1', '.', '2', '.', '3'] = Except.error Err.doubleDecimalPoint :=
  C4_double_decimal.1 '1' [] ['2'] ['3'] (by rfl)
    (by intro c hc; simp at hc) (by intro c hc; simp at hc; subst hc; rfl)

theorem ParseAux_ok_close :
    ∀ (fuel : ℕ) (s : List Char) (acc parts : List SVGDPart),
      ParseAux fuel s acc = Except.ok parts → parts.getLast? = some SVGDPart.close := by
  intro fuel
  induction fuel with
  | zero =>
    intro s acc parts h
    simp [ParseAux] at h
  | succ n ih =>
    intro s acc parts h
    rw [ParseAux] at h
    split at h
    · exact absurd h (by simp)
    · split at h
      · exact absurd h (by simp)
      · split_ifs at h with hml hhv hcc hzz
        · split at h
          · exact absurd h (by simp)
          · split at h
            · exact absurd h (by simp)
            · split at h
              · exact absurd h (by simp)
              · split at h
                · exact absurd h (by simp)
                · exact ih _ _ _ h
        · split at h
          · exact absurd h (by simp)
          · split at h
            · exact absurd h (by simp)
            · exact ih _ _ _ h
        · split at h
          · exact absurd h (by simp)
          · split at h
            · exact absurd h (by simp)
            · exact ih _ _ _ h
        · split at h
          · exact absurd h (by simp)
          · rename_i part heq
            have hclose : part = SVGDPart.close := by
              rcases hzz with hz | hz
              · subst hz
                rw [show MakePart 'Z' [] = Except.ok SVGDPart.close from rfl] at heq
                injection heq with h2
                exact h2.symm
              · subst hz
                rw [show MakePart 'z' [] = Except.ok SVGDPart.close from rfl] at heq
                injection heq with h2
                exact h2.symm
            subst hclose
            rw [Except.ok.injEq] at h
            rw [← h]
            simp
        · exact ih _ _ _ h

/-- C3 counterexample: the stream consisting of a Close command followed by
trailing data parses successfully (the trailing data is never inspected),
whereas the claim says trailing data after the Close is a grammar error fatal
to the shape. -/
theorem C3_counterexample : Parse ['Z', 'x'] = Except.ok [SVGDPart.close] := by
  rfl

/-- C3 (amended): parsing succeeds exactly by reaching a Close command —
a Close (`Z` or `z`) terminates the whole parse successfully regardless of
any trailing data, which is ignored rather than rejected; end-of-stream
before a Close fails with the read error; and every successful parse ends in
the Close part. -/
theorem C3_close_terminates :
    (∀ s : List Char, Parse ('Z' :: s) = Except.ok [SVGDPart.close]) ∧
    (∀ s : List Char, Parse ('z' :: s) = Except.ok [SVGDPart.close]) ∧
    Parse [] = Except.error Err.eof ∧
    (∀ (fuel : ℕ) (s : List Char) (acc parts : List SVGDPart),
      ParseAux fuel s acc = Except.ok parts → parts.getLast? = some SVGDPart.close) := by
  refine ⟨?_, ?_, by rfl, ParseAux_ok_close⟩
  · intro s
    rfl
  · intro s
    rfl

/-- Witness for C3: a concrete successful parse ends in the Close part. -/
theorem C3_close_terminates_witness :
    Parse ['z', '?'] = Except.ok [SVGDPart.close] ∧
    ([SVGDPart.close] : List SVGDPart).getLast? = some SVGDPart.close :=
  ⟨C3_close_terminates.2.1 ['?'],
   C3_close_terminates.2.2.2 2 ['Z'] [] [SVGDPart.close] (by rfl)⟩

theorem getD_mem_of_lt (l : List Point) (n : ℕ) (d : Point) (h : n < l.length) :
    l.getD n d ∈ l := by
  rw [List.getD_eq_getElem?_getD, List.getElem?_eq_getElem h]
  simp

theorem buildIndicesAux_not_mem :
    ∀ (l : List Point) (i : ℕ) (m : Point → ℕ) (p : Point), p ∉ l →
      buildIndicesAux l i m p = m p := by
  intro l
  induction l with
  | nil =>
    intro i m p _
    rfl
  | cons q rest ih =>
    intro i m p hp
    rw [buildIndicesAux,
      ih (i + 1) _ p (fun hmem => hp (List.mem_cons_of_mem q hmem)),
      if_neg (fun he : p = q => hp (by rw [he]; exact List.mem_cons_self q rest))]

theorem buildIndicesAux_mem :
    ∀ (l : List Point) (i : ℕ) (m : Point → ℕ) (p : Point), p ∈ l →
      ∃ k, k < l.length ∧ l.getD k ⟨0, 0⟩ = p ∧ buildIndicesAux l i m p = i + k ∧
        ∀ j, k < j → j < l.length → l.getD j ⟨0, 0⟩ ≠ p := by
  intro l
  induction l with
  | nil =>
    intro i m p hp
    exact absurd hp (List.not_mem_nil p)
  | cons q rest ih =>
    intro i m p hp
    by_cases hrest : p ∈ rest
    · obtain ⟨k, hk1, hk2, hk3, hk4⟩ := ih (i + 1) (fun s => if s = q then i else m s) p hrest
      refine ⟨k + 1, by simpa using hk1, ?_, ?_, ?_⟩
      · rw [List.getD_cons_succ]
        exact hk2
      · rw [buildIndicesAux, hk3]
        omega
      · intro j hj1 hj2
        obtain ⟨j2, rfl⟩ : ∃ j2, j = j2 + 1 := ⟨j - 1, by omega⟩
        rw [List.getD_cons_succ]
        exact hk4 j2 (by omega) (by simpa using hj2)
    · have hpq : p = q := by
        rcases List.mem_cons.mp hp with h | h
        · exact h
        · exact absurd h hrest
      refine ⟨0, by simp, by simp [hpq], ?_, ?_⟩
      · rw [buildIndicesAux, buildIndicesAux_not_mem rest (i + 1) _ p hrest, if_pos hpq]
        omega
      · intro j hj1 hj2
        obtain ⟨j2, rfl⟩ : ∃ j2, j = j2 + 1 := ⟨j - 1, by omega⟩
        rw [List.getD_cons_succ]
        intro hc
        apply hrest
        rw [← hc]
        exact getD_mem_of_lt rest j2 ⟨0, 0⟩ (by simpa using hj2)

/-- C1 counterexample: the path `M0 0L1 0L0 0L0 1Z` builds (at the caller's
resolution `0.1`) the exterior `[(0,0),(1,0),(0,0),(0,1)]`, in which the
value `(0,0)` occurs at indices 0 and 2; the index map the code builds
resolves `(0,0)` to `2`, the last-seen index, while the first-seen index the
claim asserts is `0`. -/
theorem C1_counterexample :
    PolygonFromPathElementExterior
      ['M', '0', ' ', '0', 'L', '1', ' ', '0', 'L', '0', ' ', '0', 'L', '0', ' ', '1', 'Z']
      (1 / 10) = Except.ok [⟨0, 0⟩, ⟨1, 0⟩, ⟨0, 0⟩, ⟨0, 1⟩] ∧
    buildIndices [⟨0, 0⟩, ⟨1, 0⟩, ⟨0, 0⟩, ⟨0, 1⟩] ⟨0, 0⟩ = 2 ∧
    specFirstSeenIndex [⟨0, 0⟩, ⟨1, 0⟩, ⟨0, 0⟩, ⟨0, 1⟩] ⟨0, 0⟩ = 0 ∧
    buildIndices [⟨0, 0⟩, ⟨1, 0⟩, ⟨0, 0⟩, ⟨0, 1⟩] ⟨0, 0⟩ ≠
      specFirstSeenIndex [⟨0, 0⟩, ⟨1, 0⟩, ⟨0, 0⟩, ⟨0, 1⟩] ⟨0, 0⟩ := by
  refine ⟨?_, ?_, ?_, ?_⟩
  · simp [PolygonFromPathElementExterior, Parse, ParseAux, ChompSeperator, ChompCommand,
      SVGAllCommands, isSep, ChompNumber, ChompSign, ChompDigits, digit09, MakePart,
      ParseFloatDigits, natOfDigits, SVGDParts.Linearize, SVGDPart.Linearize, Point.Add,
      RemoveDuplicates, Point.Equals, windingCorrect, Ring.Area, Ring.At, crossP, Reverse,
      List.range_succ]
  · simp [buildIndices, buildIndicesAux]
  · simp [specFirstSeenIndex, List.findIdx, List.findIdx.go]
  · simp [buildIndices, buildIndicesAux, specFirstSeenIndex, List.findIdx, List.findIdx.go]

/-- C1 (amended): the index map built over the ring resolves every point
value occurring in the ring by exact value lookup to the index of its
*last* occurrence (Go map assignments overwrite): the resolved index is in
range, holds an equal point, and no later index does. -/
theorem C1_last_seen_index (tp : List Point) (p : Point) (h : p ∈ tp) :
    buildIndices tp p < tp.length ∧
    tp.getD (buildIndices tp p) ⟨0, 0⟩ = p ∧
    ∀ j, buildIndices tp p < j → j < tp.length → tp.getD j ⟨0, 0⟩ ≠ p := by
  obtain ⟨k, hk1, hk2, hk3, hk4⟩ := buildIndicesAux_mem tp 0 (fun _ => 0) p h
  have hval : buildIndices tp p = k := by
    rw [buildIndices, hk3]
    omega
  rw [hval]
  exact ⟨hk1, hk2, hk4⟩

/-- Witness for C1: on a ring where `(0,0)` occurs at indices 0 and 2,
lookup resolves to index 2, which is in range, holds the value, and is
last. -/
theorem C1_last_seen_index_witness :
    buildIndices [⟨0, 0⟩, ⟨3, 0⟩, ⟨0, 0⟩] ⟨0, 0⟩ < ([⟨0, 0⟩, ⟨3, 0⟩, ⟨0, 0⟩] : List Point).length ∧
    ([⟨0, 0⟩, ⟨3, 0⟩, ⟨0, 0⟩] : List Point).getD (buildIndices [⟨0, 0⟩, ⟨3, 0⟩, ⟨0, 0⟩] ⟨0, 0⟩)
      ⟨0, 0⟩ = ⟨0, 0⟩ ∧
    ∀ j, buildIndices [⟨0, 0⟩, ⟨3, 0⟩, ⟨0, 0⟩] ⟨0, 0⟩ < j →
      j < ([⟨0, 0⟩, ⟨3, 0⟩, ⟨0, 0⟩] : List Point).length →
      ([⟨0, 0⟩, ⟨3, 0⟩, ⟨0, 0⟩] : List Point).getD j ⟨0, 0⟩ ≠ ⟨0, 0⟩ :=
  C1_last_seen_index [⟨0, 0⟩, ⟨3, 0⟩, ⟨0, 0⟩] ⟨0, 0⟩ (by simp)

end ItsFive
